import Mathlib

/-!
Shallow embedding of the session/queueing engine of operator-gemini:
`src/session/manager.py` (SessionManager) and `src/video/manager.py`
(VideoManager), together with the configuration constants of
`src/config.py` that those functions read.  Python lists become Lean
lists, Python dicts with fixed keys become structures, exceptions become
explicit outcome values, and the two capture loops are run over a finite
list of per-cycle capture outcomes.
-/

namespace OperatorGemini

/-- Model of Python str.lower() on the ASCII messages that appear here. -/
def strLower (s : String) : String := String.mk (s.toList.map Char.toLower)

/-- Substring search over character lists (Python's `pat in s`). -/
def listHasSub (pat : List Char) : List Char → Bool
  | [] => pat.isEmpty
  | c :: rest => pat.isPrefixOf (c :: rest) || listHasSub pat rest

/-- Model of Python's `pat in s` substring containment test. -/
def strHasSub (s pat : String) : Bool := listHasSub pat.toList s.toList

/-- Model of the Python slice `l[-k:]` for `k ≥ 0`; note that `l[-0:]`
is the whole list in Python, which the `k = 0` branch reproduces. -/
def pyTakeLast (k : Nat) (l : List α) : List α :=
  if k = 0 then l else l.drop (l.length - k)

namespace Config

/-- `Config.CONVERSATION_MEMORY` default (src/config.py). -/
def CONVERSATION_MEMORY : Nat := 50

/-- `Config.MODEL_NAME` default (src/config.py). -/
def MODEL_NAME : String := "models/gemini-2.5-flash-preview-native-audio-dialog"

/-- `Config.FALLBACK_MODELS` (src/config.py). -/
def FALLBACK_MODELS : List String :=
  ["models/gemini-2.5-flash-exp-native-audio-thinking-dialog",
   "models/gemini-2.0-flash-live-001"]

/-- `Config.CAMERA_CAPTURE_INTERVAL` (2.0 s), in tenths of a second. -/
def CAMERA_CAPTURE_INTERVAL : Nat := 20

/-- `Config.SCREEN_CAPTURE_INTERVAL` (3.0 s), in tenths of a second. -/
def SCREEN_CAPTURE_INTERVAL : Nat := 30

end Config

/-- One entry of `self.conversation_history`: the Python dict
with the fixed keys "role" and "content". -/
structure ConvEntry where
  role : String
  content : String
deriving DecidableEq

/-- `SessionManager.add_to_conversation_history` with the capacity
`Config.CONVERSATION_MEMORY` as the parameter `K`: append the entry,
then, if the length exceeds `K`, keep the Python slice
`conversation_history[-K:]`. -/
def add_to_conversation_history (K : Nat) (hist : List ConvEntry)
    (role content : String) : List ConvEntry :=
  if (hist ++ [ConvEntry.mk role content]).length > K
  then pyTakeLast K (hist ++ [ConvEntry.mk role content])
  else hist ++ [ConvEntry.mk role content]

/-- `SessionManager.send_message_with_context`.  `sendOutcome` is the
behaviour of the external `session.send` call (`Except.error e` for a
raised exception).  The result pairs the new history with the exception
propagated to the caller, which is always `none`: the `try` block first
appends the user entry, and any exception from `send` is caught and
logged by the `except` clause. -/
def send_message_with_context (K : Nat) (hist : List ConvEntry)
    (message : String) (sendOutcome : Except String Unit) :
    List ConvEntry × Option String :=
  match sendOutcome with
  | Except.ok _ => (add_to_conversation_history K hist "user" message, none)
  | Except.error _ => (add_to_conversation_history K hist "user" message, none)

/-- `SessionManager.get_conversation_summary`. -/
def get_conversation_summary (hist : List ConvEntry) : String :=
  if hist = [] then "No conversation history"
  else
    let recent_messages := pyTakeLast 10 hist
    let user_messages := (recent_messages.filter (fun m => m.role == "user")).length
    let ai_messages := (recent_messages.filter (fun m => m.role == "assistant")).length
    "Recent: " ++ toString user_messages ++ " user messages, "
      ++ toString ai_messages ++ " AI responses"

/-! ## Connect-with-fallback (`SessionManager.try_connect_with_fallbacks`) -/

/-- Outcome of one `client.aio.live.connect(model=...)` attempt:
success, a raised `websockets.exceptions.ConnectionClosedError` whose
`str(e)` is `msg`, or any other raised exception (name and message). -/
inductive ConnectOutcome where
  | success
  | connectionClosed (msg : String)
  | otherError (ename emsg : String)
deriving DecidableEq

/-- What `try_connect_with_fallbacks` does overall: return a connection
for a model, or raise one of its distinct terminal exceptions, or
re-raise the original `ConnectionClosedError` (`raise e`), or fall
through the loop ("Failed to connect with any available model"). -/
inductive ConnectResult where
  | connected (model : String)
  | quotaExhausted
  | allModelsFailed
  | reraisedConnectionClosed (msg : String)
  | noModelAvailable
deriving DecidableEq

/-- The quota test of the `ConnectionClosedError` handler:
`"quota" in str(e).lower() or "1011" in str(e)`. -/
def is_quota_error (msg : String) : Bool :=
  strHasSub (strLower msg) "quota" || strHasSub msg "1011"

/-- The `for model in models_to_try` loop of `try_connect_with_fallbacks`,
over (candidate model, outcome of its connect attempt) pairs.
`lastModel` is `models_to_try[-1]`, the string the code compares against
to decide whether the failing candidate is the last one.  Returns the
list of attempted models in order, paired with the overall result.
A quota-classified `ConnectionClosedError` advances (or, on a model equal
to `lastModel`, raises the terminal quota exception); a non-quota
`ConnectionClosedError` is re-raised (`raise e`); any other exception
advances (or raises the terminal "all models failed" exception). -/
def run_fallbacks (lastModel : String) :
    List (String × ConnectOutcome) → List String × ConnectResult
  | [] => ([], ConnectResult.noModelAvailable)
  | (model, outcome) :: rest =>
    match outcome with
    | ConnectOutcome.success => ([model], ConnectResult.connected model)
    | ConnectOutcome.connectionClosed msg =>
      if is_quota_error msg then
        if model = lastModel then ([model], ConnectResult.quotaExhausted)
        else
          let r := run_fallbacks lastModel rest
          (model :: r.1, r.2)
      else ([model], ConnectResult.reraisedConnectionClosed msg)
    | ConnectOutcome.otherError _ _ =>
      if model = lastModel then ([model], ConnectResult.allModelsFailed)
      else
        let r := run_fallbacks lastModel rest
        (model :: r.1, r.2)

/-- `SessionManager.try_connect_with_fallbacks` on a candidate list
`models` (`[Config.MODEL_NAME] + Config.FALLBACK_MODELS` in the code)
whose connect attempts behave as `outcomes`, position by position.
An empty candidate list falls through the loop. -/
def try_connect_with_fallbacks (models : List String)
    (outcomes : List ConnectOutcome) : List String × ConnectResult :=
  match models.getLast? with
  | none => ([], ConnectResult.noModelAvailable)
  | some lastModel => run_fallbacks lastModel (models.zip outcomes)

/-- A candidate/outcome pair on which the fallback loop logs and
advances to the next candidate: a quota-classified
`ConnectionClosedError`, or any other exception, on a model different
from `models_to_try[-1]`. -/
def advancesOn (lastModel : String) (p : String × ConnectOutcome) : Prop :=
  p.1 ≠ lastModel ∧
    ((∃ msg, p.2 = ConnectOutcome.connectionClosed msg ∧ is_quota_error msg = true)
      ∨ ∃ en em, p.2 = ConnectOutcome.otherError en em)

/-! ## Inbound decode loop (`SessionManager.receive_audio`) -/

/-- One response object yielded by the turn's inbound stream, with the
attributes `receive_audio` inspects; an empty `data`/`text` models the
falsy (`None`/empty) attribute. -/
structure LiveResponse where
  data : List Nat
  tool_call : Bool
  executable_code : Bool
  code_execution_result : Bool
  text : String
deriving DecidableEq

/-- The `SessionManager` fields that `receive_audio` reads and writes
across turns. -/
structure SessionState where
  audio_in_queue : List (List Nat)
  is_ai_speaking : Bool
  current_response : String
  conversation_history : List ConvEntry
  search_enabled : Bool
deriving DecidableEq

/-- The per-turn state of one iteration of `receive_audio`: the
persistent manager fields plus the turn's local flags. -/
structure TurnState where
  sess : SessionState
  response_started : Bool
  has_content : Bool
  search_results_shown : Bool
  code_execution_shown : Bool
deriving DecidableEq

/-- The body of `async for response in turn` in `receive_audio`:
audio data is enqueued on the playback queue and ends the iteration;
tool calls (with search enabled), executable code and code-execution
results are absorbed; a text token marks the response as started
(setting the "AI speaking" flag) and is accumulated. -/
def processResponse (ts : TurnState) (r : LiveResponse) : TurnState :=
  if r.data ≠ [] then
    { ts with sess := { ts.sess with
        audio_in_queue := ts.sess.audio_in_queue ++ [r.data] } }
  else if r.tool_call && ts.sess.search_enabled then
    { ts with search_results_shown := true }
  else if r.executable_code then
    { ts with code_execution_shown := true }
  else if r.code_execution_result then ts
  else if r.text ≠ "" then
    let ts1 :=
      if !ts.response_started then
        { ts with sess := { ts.sess with is_ai_speaking := true },
                  response_started := true }
      else ts
    { ts1 with
        sess := { ts1.sess with
          current_response := ts1.sess.current_response ++ r.text },
        has_content := true }
  else ts

/-- Which text token (if any) a response contributes, mirroring the
dispatch order of `processResponse`. -/
def responseTextToken (search_enabled : Bool) (r : LiveResponse) : Option String :=
  if r.data ≠ [] then none
  else if r.tool_call && search_enabled then none
  else if r.executable_code then none
  else if r.code_execution_result then none
  else if r.text ≠ "" then some r.text
  else none

/-- Concatenation of the turn's text tokens in arrival order. -/
def concatTokens (l : List String) : String :=
  l.foldl (fun a b => a ++ b) ""

/-- The text tokens a turn's response stream contributes, in arrival
order. -/
def turnTexts (search_enabled : Bool) (rs : List LiveResponse) : List String :=
  rs.filterMap (responseTextToken search_enabled)

/-- The turn-local state at the top of one `receive_audio` iteration:
`current_response` reset, all per-turn flags cleared. -/
def initTurnState (st : SessionState) : TurnState :=
  { sess := { st with current_response := "" },
    response_started := false, has_content := false,
    search_results_shown := false, code_execution_shown := false }

/-- One iteration of the `while True` loop of `receive_audio`: reset
`current_response`, process the turn's responses, then — only if the
turn completed normally (`abnormal = false`) — run the end-of-turn
commit (`if self.is_ai_speaking and has_content`) and drain the
playback queue.  An exception during the turn (`abnormal = true`) jumps
to the `except` clause, which logs and sleeps, skipping both the commit
and the drain. -/
def receive_audio_turn (K : Nat) (st : SessionState)
    (responses : List LiveResponse) (abnormal : Bool) : SessionState :=
  let ts := responses.foldl processResponse (initTurnState st)
  if abnormal then ts.sess
  else
    let s1 :=
      if ts.sess.is_ai_speaking && ts.has_content then
        { ts.sess with
            conversation_history :=
              add_to_conversation_history K ts.sess.conversation_history
                "assistant" ts.sess.current_response,
            is_ai_speaking := false }
      else ts.sess
    { s1 with audio_in_queue := [] }

/-! ## Media producer loops (`VideoManager.get_frames`, `VideoManager.get_screen`) -/

/-- The behaviour of one capture attempt by the external capture
primitive: a frame (abstracted to a `Nat` payload), no frame
(e.g. `cap.read()` with `ret` false), or a raised exception. -/
inductive CaptureOutcome where
  | frame (f : Nat)
  | nothing
  | error (msg : String)
deriving DecidableEq

/-- `VideoManager._get_screen` on one capture attempt: when screen
capture is disabled it returns `None`; a capture exception is caught by
the helper's own `try`/`except`, logged, and turned into `None`. -/
def _get_screen (screen_enabled : Bool) (c : CaptureOutcome) : Option Nat :=
  if !screen_enabled then none
  else
    match c with
    | CaptureOutcome.frame f => some f
    | CaptureOutcome.nothing => none
    | CaptureOutcome.error _ => none

/-- `VideoManager.get_frames` (camera loop) run over a finite list of
per-cycle capture outcomes.  Returns (frames put on the out queue,
pauses slept in tenths of a second, whether the loop survived the
cycles).  The `try` of `get_frames` wraps the whole `while` loop, so a
capture exception is caught once outside the loop and the loop ends
permanently (`false`) with no further cycle run and no pause. -/
def get_frames (camera_enabled : Bool) :
    List CaptureOutcome → List Nat × List Nat × Bool
  | [] => ([], [], true)
  | c :: rest =>
    if camera_enabled then
      match c with
      | CaptureOutcome.frame f =>
        let r := get_frames camera_enabled rest
        (f :: r.1, Config.CAMERA_CAPTURE_INTERVAL :: r.2.1, r.2.2)
      | CaptureOutcome.nothing =>
        let r := get_frames camera_enabled rest
        (r.1, Config.CAMERA_CAPTURE_INTERVAL :: r.2.1, r.2.2)
      | CaptureOutcome.error _ => ([], [], false)
    else
      let r := get_frames camera_enabled rest
      (r.1, Config.CAMERA_CAPTURE_INTERVAL :: r.2.1, r.2.2)

/-- `VideoManager.get_screen` (screen loop) run over a finite list of
per-cycle capture outcomes, same result shape as `get_frames`.  Each
cycle calls `_get_screen` — which absorbs capture exceptions — and then
sleeps the normal capture interval; the loop's own `except` clause
(1.0 s pause) is reached only by failures outside the capture helper,
so no capture outcome triggers it. -/
def get_screen (screen_enabled : Bool) :
    List CaptureOutcome → List Nat × List Nat × Bool
  | [] => ([], [], true)
  | c :: rest =>
    let fr := _get_screen screen_enabled c
    let r := get_screen screen_enabled rest
    ((match fr with | some f => f :: r.1 | none => r.1),
      Config.SCREEN_CAPTURE_INTERVAL :: r.2.1, r.2.2)

/-! ## Helper lemmas -/

/-- Appending with eviction always yields the Python slice
`(hist + [entry])[-(K):]` with the truncated-subtraction drop index,
for positive capacity. -/
lemma add_to_conversation_history_eq_drop (K : Nat) (hK : 0 < K)
    (hist : List ConvEntry) (role content : String) :
    add_to_conversation_history K hist role content
      = (hist ++ [ConvEntry.mk role content]).drop ((hist.length + 1) - K) := by
  unfold add_to_conversation_history pyTakeLast
  by_cases hgt : (hist ++ [ConvEntry.mk role content]).length > K
  · rw [if_pos hgt, if_neg (by omega : ¬ K = 0)]
    simp
  · rw [if_neg hgt]
    simp only [List.length_append, List.length_singleton] at hgt
    have h0 : hist.length + 1 - K = 0 := by omega
    simp [h0]

/-- For positive capacity, the history never exceeds `K` entries after
an append. -/
lemma add_to_conversation_history_length_le (K : Nat) (hK : 0 < K)
    (hist : List ConvEntry) (role content : String) :
    (add_to_conversation_history K hist role content).length ≤ K := by
  rw [add_to_conversation_history_eq_drop K hK]
  simp only [List.length_drop, List.length_append, List.length_singleton]
  omega

/-- The appended entry is always the last element of the new history. -/
lemma add_to_conversation_history_getLast (K : Nat)
    (hist : List ConvEntry) (role content : String) :
    (add_to_conversation_history K hist role content).getLast?
      = some (ConvEntry.mk role content) := by
  unfold add_to_conversation_history pyTakeLast
  split
  · split
    · simp
    · rename_i hgt hK0
      have hK : 1 ≤ K := Nat.one_le_iff_ne_zero.mpr hK0
      have hlen : (hist ++ [ConvEntry.mk role content]).length - K ≤ hist.length := by
        simp only [List.length_append, List.length_singleton]; omega
      rw [List.drop_append_of_le_length hlen]
      simp
  · simp

/-- Folding `add_to_conversation_history` over a list of entries keeps
exactly the final `K`-suffix of everything ever appended. -/
lemma foldl_add_to_conversation_history (K : Nat) (hK : 0 < K) :
    ∀ (es hist : List ConvEntry), hist.length ≤ K →
      es.foldl (fun acc e => add_to_conversation_history K acc e.role e.content) hist
        = (hist ++ es).drop ((hist ++ es).length - K) := by
  intro es
  induction es with
  | nil =>
    intro hist hh
    simp [Nat.sub_eq_zero_of_le hh]
  | cons e es ih =>
    intro hist hh
    rw [List.foldl_cons]
    have hstep : add_to_conversation_history K hist e.role e.content
        = (hist ++ [e]).drop ((hist.length + 1) - K) := by
      rw [add_to_conversation_history_eq_drop K hK]
    have hlen : (add_to_conversation_history K hist e.role e.content).length ≤ K :=
      add_to_conversation_history_length_le K hK hist e.role e.content
    rw [ih _ hlen, hstep]
    have hdle : (hist.length + 1) - K ≤ (hist ++ [e]).length := by
      simp only [List.length_append, List.length_singleton]; omega
    rw [← List.drop_append_of_le_length hdle, List.drop_drop]
    congr 1
    · simp only [List.length_append, List.length_drop, List.length_singleton,
        List.length_cons, List.length_nil]
      omega
    · simp

/-- The fallback loop walks over any block of advancing candidates,
recording each as attempted, and then behaves as it would on the
remaining candidates. -/
lemma run_fallbacks_skip (lastModel : String) :
    ∀ ps₁ ps₂ : List (String × ConnectOutcome),
      (∀ p ∈ ps₁, advancesOn lastModel p) →
      run_fallbacks lastModel (ps₁ ++ ps₂)
        = (ps₁.map Prod.fst ++ (run_fallbacks lastModel ps₂).1,
           (run_fallbacks lastModel ps₂).2) := by
  intro ps₁
  induction ps₁ with
  | nil => intro ps₂ _; simp
  | cons p ps ih =>
    intro ps₂ h
    obtain ⟨m, o⟩ := p
    obtain ⟨hne, hcase⟩ := h (m, o) (List.mem_cons_self (m, o) ps)
    have hrest := ih ps₂ (fun q hq => h q (List.mem_cons_of_mem (m, o) hq))
    rcases hcase with ⟨msg, ho, hq⟩ | ⟨en, em, ho⟩
    · simp only at ho
      subst ho
      simp only [List.cons_append, run_fallbacks, hq, if_true, if_neg hne, hrest]
      simp [hrest]
    · simp only at ho
      subst ho
      simp only [List.cons_append, run_fallbacks, if_neg hne, hrest]
      simp [hrest]

/-- If the fallback loop ends in one of its two terminal errors and no
candidate before the final position carries the last candidate's model
name, then every candidate was attempted. -/
lemma run_fallbacks_terminal_attempts (lastModel : String) :
    ∀ ps : List (String × ConnectOutcome),
      (∀ p ∈ ps.dropLast, p.1 ≠ lastModel) →
      ((run_fallbacks lastModel ps).2 = ConnectResult.quotaExhausted
        ∨ (run_fallbacks lastModel ps).2 = ConnectResult.allModelsFailed) →
      (run_fallbacks lastModel ps).1 = ps.map Prod.fst := by
  intro ps
  induction ps with
  | nil =>
    intro _ hterm
    rcases hterm with hterm | hterm <;> simp [run_fallbacks] at hterm
  | cons p rest ih =>
    intro hdrop hterm
    obtain ⟨m, o⟩ := p
    cases rest with
    | nil =>
      cases o with
      | success =>
        rcases hterm with hterm | hterm <;> simp [run_fallbacks] at hterm
      | connectionClosed msg =>
        by_cases hq : is_quota_error msg = true
        · by_cases hm : m = lastModel
          · simp [run_fallbacks, hq, hm]
          · rcases hterm with hterm | hterm <;>
              simp [run_fallbacks, hq, hm] at hterm
        · have hq2 : is_quota_error msg = false := by simpa using hq
          rcases hterm with hterm | hterm <;> simp [run_fallbacks, hq2] at hterm
      | otherError en em =>
        by_cases hm : m = lastModel
        · simp [run_fallbacks, hm]
        · rcases hterm with hterm | hterm <;> simp [run_fallbacks, hm] at hterm
    | cons q qs =>
      have hm : m ≠ lastModel := by
        have : (m, o) ∈ ((m, o) :: q :: qs).dropLast := by
          simp [List.dropLast_cons₂]
        exact hdrop (m, o) this
      have hdrop2 : ∀ p ∈ (q :: qs).dropLast, p.1 ≠ lastModel := by
        intro p hp
        refine hdrop p ?_
        simp only [List.dropLast_cons₂, List.mem_cons]
        right
        exact hp
      cases o with
      | success =>
        rcases hterm with hterm | hterm <;> simp [run_fallbacks] at hterm
      | connectionClosed msg =>
        by_cases hq : is_quota_error msg = true
        · simp only [run_fallbacks, hq, if_true, if_neg hm] at hterm ⊢
          have := ih hdrop2 (by simpa using hterm)
          simpa using this
        · have hq2 : is_quota_error msg = false := by simpa using hq
          rcases hterm with hterm | hterm <;> simp [run_fallbacks, hq2] at hterm
      | otherError en em =>
        simp only [run_fallbacks, if_neg hm] at hterm ⊢
        have := ih hdrop2 (by simpa using hterm)
        simpa using this

/-- The attempted-model list is always an order-preserving initial
segment of the candidate list. -/
lemma run_fallbacks_attempts_take (lastModel : String) :
    ∀ ps : List (String × ConnectOutcome), ∃ n,
      (run_fallbacks lastModel ps).1 = (ps.map Prod.fst).take n := by
  intro ps
  induction ps with
  | nil => exact ⟨0, rfl⟩
  | cons p rest ih =>
    obtain ⟨m, o⟩ := p
    obtain ⟨n, hn⟩ := ih
    cases o with
    | success => exact ⟨1, by simp [run_fallbacks]⟩
    | connectionClosed msg =>
      by_cases hq : is_quota_error msg = true
      · by_cases hm : m = lastModel
        · exact ⟨1, by simp [run_fallbacks, hq, hm]⟩
        · exact ⟨n + 1, by simp [run_fallbacks, hq, hm, hn]⟩
      · refine ⟨1, ?_⟩
        have hq2 : is_quota_error msg = false := by simpa using hq
        simp [run_fallbacks, hq2]
    | otherError en em =>
      by_cases hm : m = lastModel
      · exact ⟨1, by simp [run_fallbacks, hm]⟩
      · exact ⟨n + 1, by simp [run_fallbacks, hm, hn]⟩

/-- With a known last candidate, the top-level function is the loop. -/
lemma try_connect_eq_run (models : List String) (outcomes : List ConnectOutcome)
    (lastModel : String) (h : models.getLast? = some lastModel) :
    try_connect_with_fallbacks models outcomes
      = run_fallbacks lastModel (models.zip outcomes) := by
  unfold try_connect_with_fallbacks
  rw [h]

/-! ## Claim theorems -/

/-- C9: a `ConnectionClosedError` is routed to the quota-handling path
exactly when the lowercased message contains "quota" or the raw message
contains "1011"; in particular any message containing "1011" anywhere
is routed to the quota path regardless of its actual cause, and a
message matching neither marker is re-raised unchanged. -/
theorem quota_classification_routing (lastModel model msg : String)
    (rest : List (String × ConnectOutcome)) :
    (strHasSub msg "1011" = true →
      run_fallbacks lastModel ((model, ConnectOutcome.connectionClosed msg) :: rest)
        = if model = lastModel then ([model], ConnectResult.quotaExhausted)
          else (model :: (run_fallbacks lastModel rest).1,
                (run_fallbacks lastModel rest).2))
    ∧ (strHasSub (strLower msg) "quota" = false ∧ strHasSub msg "1011" = false →
      run_fallbacks lastModel ((model, ConnectOutcome.connectionClosed msg) :: rest)
        = ([model], ConnectResult.reraisedConnectionClosed msg))
    ∧ is_quota_error msg
        = (strHasSub (strLower msg) "quota" || strHasSub msg "1011") := by
  refine ⟨?_, ?_, rfl⟩
  · intro h
    have hq : is_quota_error msg = true := by
      simp [is_quota_error, h]
    by_cases hm : model = lastModel
    · simp [run_fallbacks, hq, hm]
    · simp [run_fallbacks, hq, hm]
  · intro h
    have hq : is_quota_error msg = false := by
      simp [is_quota_error, h.1, h.2]
    simp [run_fallbacks, hq]

/-- Witness for C9: a close code 1011 message with no quota wording is
routed to the quota path and, on the last candidate, raises the
terminal quota error. -/
theorem quota_classification_routing_witness :
    strHasSub "abnormal closure 1011 internal error" "1011" = true
    ∧ run_fallbacks "m1"
        [("m1", ConnectOutcome.connectionClosed "abnormal closure 1011 internal error")]
      = (["m1"], ConnectResult.quotaExhausted) := by
  refine ⟨by decide, ?_⟩
  have h := (quota_classification_routing "m1" "m1"
    "abnormal closure 1011 internal error" []).1 (by decide)
  simpa using h

/-- C10: the loop detects "the last candidate" by comparing model-name
strings with `models_to_try[-1]`: with pairwise-distinct names a
terminal error implies every candidate was attempted, while a failing
candidate that merely carries the last candidate's name raises the
terminal error at once, leaving the remaining candidates unattempted. -/
theorem last_candidate_by_name (models : List String)
    (outcomes : List ConnectOutcome) (lastModel msg en em : String)
    (rest : List (String × ConnectOutcome))
    (hnd : models.Nodup) (hlen : models.length = outcomes.length) :
    (((try_connect_with_fallbacks models outcomes).2 = ConnectResult.quotaExhausted
        ∨ (try_connect_with_fallbacks models outcomes).2
            = ConnectResult.allModelsFailed) →
      (try_connect_with_fallbacks models outcomes).1 = models)
    ∧ (is_quota_error msg = true →
        run_fallbacks lastModel
            ((lastModel, ConnectOutcome.connectionClosed msg) :: rest)
          = ([lastModel], ConnectResult.quotaExhausted))
    ∧ run_fallbacks lastModel ((lastModel, ConnectOutcome.otherError en em) :: rest)
        = ([lastModel], ConnectResult.allModelsFailed) := by
  refine ⟨?_, ?_, ?_⟩
  · intro hterm
    cases models with
    | nil =>
      rcases hterm with hterm | hterm <;>
        simp [try_connect_with_fallbacks] at hterm
    | cons m ms =>
      have hne : (m :: ms : List String) ≠ [] := by simp
      have hsome : (m :: ms).getLast? = some ((m :: ms).getLast hne) :=
        List.getLast?_eq_getLast _ hne
      have hunfold : try_connect_with_fallbacks (m :: ms) outcomes
          = run_fallbacks ((m :: ms).getLast hne) ((m :: ms).zip outcomes) := by
        unfold try_connect_with_fallbacks
        rw [hsome]
      rw [hunfold] at hterm ⊢
      have hfst : ((m :: ms).zip outcomes).map Prod.fst = m :: ms :=
        List.map_fst_zip _ _ (le_of_eq hlen)
      have hni : (m :: ms).getLast hne ∉ (m :: ms).dropLast := by
        have hsplit : (m :: ms).dropLast ++ [(m :: ms).getLast hne] = m :: ms :=
          List.dropLast_append_getLast hne
        have hnd2 : ((m :: ms).dropLast ++ [(m :: ms).getLast hne]).Nodup := by
          rwa [hsplit]
        have hdisj := (List.nodup_append.mp hnd2).2.2
        intro hmemL
        exact hdisj hmemL (by simp)
      have hdrop : ∀ p ∈ ((m :: ms).zip outcomes).dropLast,
          p.1 ≠ (m :: ms).getLast hne := by
        intro p hp
        have hmem : p.1 ∈ (m :: ms).dropLast := by
          have hmap : p.1 ∈ (((m :: ms).zip outcomes).dropLast).map Prod.fst :=
            List.mem_map_of_mem Prod.fst hp
          rwa [List.map_dropLast, hfst] at hmap
        intro hEq
        exact hni (hEq ▸ hmem)
      rw [run_fallbacks_terminal_attempts _ _ hdrop hterm, hfst]
  · intro hq
    simp [run_fallbacks, hq]
  · simp [run_fallbacks]

/-- Witness for C10: two distinct candidates, both quota-failing; the
terminal quota error comes only after both were attempted. -/
theorem last_candidate_by_name_witness :
    ((["mA", "mB"] : List String).Nodup
      ∧ (["mA", "mB"] : List String).length
          = ([ConnectOutcome.connectionClosed "quota hit",
              ConnectOutcome.connectionClosed "quota hit"] : List ConnectOutcome).length)
    ∧ (try_connect_with_fallbacks ["mA", "mB"]
        [ConnectOutcome.connectionClosed "quota hit",
         ConnectOutcome.connectionClosed "quota hit"]).1
      = ["mA", "mB"] := by
  refine ⟨⟨by decide, by decide⟩, ?_⟩
  exact (last_candidate_by_name ["mA", "mB"]
    [ConnectOutcome.connectionClosed "quota hit",
     ConnectOutcome.connectionClosed "quota hit"]
    "x" "x" "x" "x" [] (by decide) (by decide)).1 (Or.inl (by decide))

/-- C4: with pairwise-distinct candidate names the loop attempts
candidates strictly in list order, advances past every quota-classified
failure, returns at the first success leaving later candidates
unattempted, and surfaces the terminal quota error when the
quota-classified failure hits the last candidate; the attempted list is
always an order-preserving initial segment of the candidates. -/
theorem fallback_quota_chain
    (ms₁ ms₂ : List String) (m : String)
    (qs₁ : List String) (q : String) (os₂ : List ConnectOutcome)
    (hnd : (ms₁ ++ m :: ms₂).Nodup)
    (hnd2 : (ms₁ ++ [m]).Nodup)
    (hlen : ms₁.length = qs₁.length)
    (hq : ∀ x ∈ qs₁, is_quota_error x = true)
    (hqq : is_quota_error q = true) :
    try_connect_with_fallbacks (ms₁ ++ m :: ms₂)
        (qs₁.map ConnectOutcome.connectionClosed
          ++ ConnectOutcome.success :: os₂)
      = (ms₁ ++ [m], ConnectResult.connected m)
    ∧ try_connect_with_fallbacks (ms₁ ++ [m])
        (qs₁.map ConnectOutcome.connectionClosed
          ++ [ConnectOutcome.connectionClosed q])
      = (ms₁ ++ [m], ConnectResult.quotaExhausted)
    ∧ ∀ (lastName : String) (ps : List (String × ConnectOutcome)), ∃ n,
        (run_fallbacks lastName ps).1 = (ps.map Prod.fst).take n := by
  have hlenq : ms₁.length = (qs₁.map ConnectOutcome.connectionClosed).length := by
    simpa using hlen
  refine ⟨?_, ?_, run_fallbacks_attempts_take⟩
  · have hne2 : (m :: ms₂ : List String) ≠ [] := by simp
    have hsome : (ms₁ ++ m :: ms₂).getLast? = some ((m :: ms₂).getLast hne2) := by
      rw [List.getLast?_append_of_ne_nil ms₁ hne2]
      exact List.getLast?_eq_getLast _ hne2
    have hLmem : (m :: ms₂).getLast hne2 ∈ m :: ms₂ := List.getLast_mem hne2
    have hdisj := (List.nodup_append.mp hnd).2.2
    have hadv : ∀ p ∈ ms₁.zip (qs₁.map ConnectOutcome.connectionClosed),
        advancesOn ((m :: ms₂).getLast hne2) p := by
      intro p hp
      obtain ⟨a, b⟩ := p
      obtain ⟨ha, hb⟩ := List.of_mem_zip hp
      constructor
      · intro hEq
        have hEq2 : a = (m :: ms₂).getLast hne2 := hEq
        exact hdisj (hEq2 ▸ ha) hLmem
      · left
        obtain ⟨x, hx, hxb⟩ := List.mem_map.mp hb
        exact ⟨x, hxb.symm, hq x hx⟩
    rw [try_connect_eq_run _ _ _ hsome, List.zip_append hlenq,
      run_fallbacks_skip _ _ _ hadv, List.map_fst_zip _ _ (le_of_eq hlenq)]
    simp [run_fallbacks]
  · have hne2 : ([m] : List String) ≠ [] := by simp
    have hsome : (ms₁ ++ [m]).getLast? = some m := by
      rw [List.getLast?_append_of_ne_nil ms₁ hne2]
      simp
    have hdisj := (List.nodup_append.mp hnd2).2.2
    have hadv : ∀ p ∈ ms₁.zip (qs₁.map ConnectOutcome.connectionClosed),
        advancesOn m p := by
      intro p hp
      obtain ⟨a, b⟩ := p
      obtain ⟨ha, hb⟩ := List.of_mem_zip hp
      constructor
      · intro hEq
        have hEq2 : a = m := hEq
        exact hdisj ha (by simp [hEq2])
      · left
        obtain ⟨x, hx, hxb⟩ := List.mem_map.mp hb
        exact ⟨x, hxb.symm, hq x hx⟩
    rw [try_connect_eq_run _ _ _ hsome, List.zip_append hlenq,
      run_fallbacks_skip _ _ _ hadv, List.map_fst_zip _ _ (le_of_eq hlenq)]
    simp [run_fallbacks, hqq]

/-- Witness for C4 at the spec's scenario: quota-fail, quota-fail,
success connects the third candidate after attempting all three in
order and nothing else. -/
theorem fallback_quota_chain_witness :
    ((["mA", "mB", "mC"] : List String).Nodup
      ∧ (["mA", "mB"] : List String).length = (["quota a", "429 quota hit"] : List String).length
      ∧ (∀ x ∈ (["quota a", "429 quota hit"] : List String), is_quota_error x = true)
      ∧ is_quota_error "quota again" = true)
    ∧ try_connect_with_fallbacks ["mA", "mB", "mC"]
        [ConnectOutcome.connectionClosed "quota a",
         ConnectOutcome.connectionClosed "429 quota hit",
         ConnectOutcome.success]
      = (["mA", "mB", "mC"], ConnectResult.connected "mC") := by
  refine ⟨⟨by decide, by decide, by decide, by decide⟩, ?_⟩
  have h := (fallback_quota_chain ["mA", "mB"] [] "mC"
    ["quota a", "429 quota hit"] "quota again" []
    (by decide) (by decide) (by decide) (by decide) (by decide)).1
  simpa using h

/-- C1 (amended): a generic (non-`ConnectionClosedError`) failure is
fatal only for the failing candidate — the loop logs and advances, and
surfaces the terminal all-models-failed error only on the candidate
carrying the last name, after attempting every candidate; with a single
candidate failing generically that terminal error comes after exactly
one attempt.  A `ConnectionClosedError` not classified as quota is
instead re-raised immediately as itself, at any position, without the
terminal error and without attempting further candidates. -/
theorem fatal_failure_fallback
    (lastModel model msg en em : String)
    (ps₁ rest : List (String × ConnectOutcome))
    (hadv : ∀ p ∈ ps₁,
      p.1 ≠ lastModel ∧ ∃ a b, p.2 = ConnectOutcome.otherError a b)
    (hnq : is_quota_error msg = false) :
    run_fallbacks lastModel (ps₁ ++ [(lastModel, ConnectOutcome.otherError en em)])
      = (ps₁.map Prod.fst ++ [lastModel], ConnectResult.allModelsFailed)
    ∧ try_connect_with_fallbacks [model] [ConnectOutcome.otherError en em]
      = ([model], ConnectResult.allModelsFailed)
    ∧ run_fallbacks lastModel ((model, ConnectOutcome.connectionClosed msg) :: rest)
      = ([model], ConnectResult.reraisedConnectionClosed msg) := by
  refine ⟨?_, ?_, ?_⟩
  · have hadv2 : ∀ p ∈ ps₁, advancesOn lastModel p := by
      intro p hp
      obtain ⟨h1, a, b, h2⟩ := hadv p hp
      exact ⟨h1, Or.inr ⟨a, b, h2⟩⟩
    rw [run_fallbacks_skip _ _ _ hadv2]
    simp [run_fallbacks]
  · simp [try_connect_with_fallbacks, run_fallbacks]
  · simp [run_fallbacks, hnq]

/-- Witness for C1's amended claim: two candidates failing with generic
exceptions; both are attempted and the terminal error surfaces on the
last. -/
theorem fatal_failure_fallback_witness :
    (∀ p ∈ ([("mA", ConnectOutcome.otherError "ValueError" "bad key")] :
        List (String × ConnectOutcome)),
      p.1 ≠ "mB" ∧ ∃ a b, p.2 = ConnectOutcome.otherError a b)
    ∧ run_fallbacks "mB"
        [("mA", ConnectOutcome.otherError "ValueError" "bad key"),
         ("mB", ConnectOutcome.otherError "ValueError" "bad key")]
      = (["mA", "mB"], ConnectResult.allModelsFailed) := by
  have hadv : ∀ p ∈ ([("mA", ConnectOutcome.otherError "ValueError" "bad key")] :
      List (String × ConnectOutcome)),
      p.1 ≠ "mB" ∧ ∃ a b, p.2 = ConnectOutcome.otherError a b := by
    intro p hp
    rw [List.mem_singleton] at hp
    subst hp
    exact ⟨by decide, "ValueError", "bad key", rfl⟩
  refine ⟨hadv, ?_⟩
  have h := (fatal_failure_fallback "mB" "x" "nope" "ValueError" "bad key"
    [("mA", ConnectOutcome.otherError "ValueError" "bad key")] []
    hadv (by decide)).1
  simpa using h

/-- Counterexample for C1 as stated: a single candidate failing with a
non-quota `ConnectionClosedError` does NOT surface the terminal
all-models-failed error — the original error is re-raised — and at a
non-last position such a failure does not log-and-continue either: the
next candidate is never attempted. -/
theorem nonquota_connection_closed_not_terminal :
    try_connect_with_fallbacks ["mA"]
        [ConnectOutcome.connectionClosed "connection closed: internal error"]
      = (["mA"],
         ConnectResult.reraisedConnectionClosed "connection closed: internal error")
    ∧ ConnectResult.reraisedConnectionClosed "connection closed: internal error"
        ≠ ConnectResult.allModelsFailed
    ∧ is_quota_error "connection closed: internal error" = false
    ∧ try_connect_with_fallbacks ["mA", "mB"]
        [ConnectOutcome.connectionClosed "connection closed: internal error",
         ConnectOutcome.success]
      = (["mA"],
         ConnectResult.reraisedConnectionClosed "connection closed: internal error") :=
  ⟨by decide, by decide, by decide, by decide⟩

/-- C5: appending `N > K` entries (capacity `K`, default 50, positive)
leaves exactly the most recently appended `K` entries in their original
relative order, and the length never exceeds `K` after any append. -/
theorem conversation_history_rolling (K : Nat) (es : List ConvEntry)
    (hK : 0 < K) (hN : K < es.length) :
    es.foldl (fun acc e => add_to_conversation_history K acc e.role e.content) []
        = es.drop (es.length - K)
    ∧ (es.foldl (fun acc e =>
          add_to_conversation_history K acc e.role e.content) []).length = K
    ∧ ∀ (hist : List ConvEntry) (role content : String),
        (add_to_conversation_history K hist role content).length ≤ K := by
  have hfold := foldl_add_to_conversation_history K hK es []
    (by simp)
  simp only [List.nil_append] at hfold
  refine ⟨hfold, ?_, fun hist role content =>
    add_to_conversation_history_length_le K hK hist role content⟩
  rw [hfold]
  simp only [List.length_drop]
  omega

/-- Witness for C5: capacity 2 with three appends keeps the last two
entries in order. -/
theorem conversation_history_rolling_witness :
    (0 < 2 ∧
      2 < ([ConvEntry.mk "user" "a", ConvEntry.mk "user" "b",
            ConvEntry.mk "user" "c"] : List ConvEntry).length)
    ∧ ([ConvEntry.mk "user" "a", ConvEntry.mk "user" "b",
        ConvEntry.mk "user" "c"] : List ConvEntry).foldl
          (fun acc e => add_to_conversation_history 2 acc e.role e.content) []
        = [ConvEntry.mk "user" "b", ConvEntry.mk "user" "c"] := by
  refine ⟨⟨by decide, by decide⟩, ?_⟩
  have h := (conversation_history_rolling 2
    [ConvEntry.mk "user" "a", ConvEntry.mk "user" "b", ConvEntry.mk "user" "c"]
    (by decide) (by decide)).1
  rw [h]
  decide

/-- C7 (amended): for every NONEMPTY history, the summary reports the
user-role and assistant-role counts over the at most 10 most recent
entries; the empty history instead returns a fixed no-history string. -/
theorem summary_counts (hist : List ConvEntry) (h : hist ≠ []) :
    get_conversation_summary hist
      = "Recent: "
          ++ toString ((pyTakeLast 10 hist).countP (fun m => m.role == "user"))
          ++ " user messages, "
          ++ toString ((pyTakeLast 10 hist).countP (fun m => m.role == "assistant"))
          ++ " AI responses"
    ∧ (pyTakeLast 10 hist).length ≤ 10
    ∧ pyTakeLast 10 hist = hist.drop (hist.length - 10) := by
  have h10 : pyTakeLast 10 hist = hist.drop (hist.length - 10) := by
    simp [pyTakeLast]
  refine ⟨?_, ?_, h10⟩
  · unfold get_conversation_summary
    rw [if_neg h]
    rw [List.countP_eq_length_filter, List.countP_eq_length_filter]
  · rw [h10]
    simp only [List.length_drop]
    omega

/-- Witness for C7's amended claim on a one-entry history. -/
theorem summary_counts_witness :
    ([ConvEntry.mk "user" "hi"] : List ConvEntry) ≠ []
    ∧ get_conversation_summary [ConvEntry.mk "user" "hi"]
      = "Recent: "
          ++ toString ((pyTakeLast 10 [ConvEntry.mk "user" "hi"]).countP
              (fun m => m.role == "user"))
          ++ " user messages, "
          ++ toString ((pyTakeLast 10 [ConvEntry.mk "user" "hi"]).countP
              (fun m => m.role == "assistant"))
          ++ " AI responses" :=
  ⟨by decide, (summary_counts [ConvEntry.mk "user" "hi"] (by decide)).1⟩

/-- Counterexample for C7 as stated: the empty history does not return
the role tally of its (empty) 10-entry window; it returns the fixed
no-history string instead. -/
theorem summary_empty_not_tally :
    get_conversation_summary ([] : List ConvEntry) = "No conversation history"
    ∧ get_conversation_summary ([] : List ConvEntry)
        ≠ "Recent: "
            ++ toString ((pyTakeLast 10 ([] : List ConvEntry)).countP
                (fun m => m.role == "user"))
            ++ " user messages, "
            ++ toString ((pyTakeLast 10 ([] : List ConvEntry)).countP
                (fun m => m.role == "assistant"))
            ++ " AI responses" := by
  refine ⟨rfl, ?_⟩
  decide

/-- C8: `send_message_with_context` appends the user entry before the
send; a raised send exception is swallowed (result is identical to the
success case, nothing propagates), and the appended user entry remains
as the last history element. -/
theorem send_message_error_swallowed (K : Nat) (hist : List ConvEntry)
    (message e : String) :
    send_message_with_context K hist message (Except.error e)
        = send_message_with_context K hist message (Except.ok ())
    ∧ (send_message_with_context K hist message (Except.error e)).2 = none
    ∧ (send_message_with_context K hist message (Except.error e)).1
        = add_to_conversation_history K hist "user" message
    ∧ (send_message_with_context K hist message (Except.error e)).1.getLast?
        = some (ConvEntry.mk "user" message) := by
  refine ⟨rfl, rfl, rfl, ?_⟩
  exact add_to_conversation_history_getLast K hist "user" message

/-- Folding string concatenation from any seed factors the seed out. -/
lemma foldl_strAppend (l : List String) :
    ∀ s : String, l.foldl (fun a b => a ++ b) s = s ++ concatTokens l := by
  induction l with
  | nil => intro s; simp [concatTokens]
  | cons t ts ih =>
    intro s
    show ts.foldl (fun a b => a ++ b) (s ++ t) = s ++ concatTokens (t :: ts)
    rw [ih (s ++ t)]
    have h2 : concatTokens (t :: ts) = t ++ concatTokens ts := by
      show ts.foldl (fun a b => a ++ b) ("" ++ t) = t ++ concatTokens ts
      rw [ih ("" ++ t)]
      simp
    rw [h2, String.append_assoc]

/-- Concatenating with a leading token. -/
lemma concatTokens_cons (t : String) (l : List String) :
    concatTokens (t :: l) = t ++ concatTokens l := by
  show l.foldl (fun a b => a ++ b) ("" ++ t) = t ++ concatTokens l
  rw [foldl_strAppend l ("" ++ t)]
  simp

/-- One response step of the decode loop, described through the text
token (if any) the response contributes. -/
lemma processResponse_fields (ts : TurnState) (r : LiveResponse) :
    (processResponse ts r).sess.search_enabled = ts.sess.search_enabled
    ∧ (processResponse ts r).sess.conversation_history
        = ts.sess.conversation_history
    ∧ (processResponse ts r).sess.current_response
        = ts.sess.current_response
            ++ (responseTextToken ts.sess.search_enabled r).getD ""
    ∧ (processResponse ts r).has_content
        = (ts.has_content || (responseTextToken ts.sess.search_enabled r).isSome)
    ∧ (processResponse ts r).response_started
        = (ts.response_started
            || (responseTextToken ts.sess.search_enabled r).isSome)
    ∧ (processResponse ts r).sess.is_ai_speaking
        = (ts.sess.is_ai_speaking
            || (!ts.response_started
                && (responseTextToken ts.sess.search_enabled r).isSome)) := by
  unfold processResponse responseTextToken
  split_ifs <;> simp_all

/-- Running a whole turn's response stream: the fields the end-of-turn
commit inspects, described by the turn's text tokens.  The hypothesis is
the reachable-state invariant that a started response implies the
speaking flag. -/
lemma foldl_processResponse (rs : List LiveResponse) :
    ∀ ts : TurnState,
      (ts.response_started = true → ts.sess.is_ai_speaking = true) →
      (rs.foldl processResponse ts).sess.search_enabled = ts.sess.search_enabled
      ∧ (rs.foldl processResponse ts).sess.conversation_history
          = ts.sess.conversation_history
      ∧ (rs.foldl processResponse ts).sess.current_response
          = ts.sess.current_response
              ++ concatTokens (turnTexts ts.sess.search_enabled rs)
      ∧ (rs.foldl processResponse ts).has_content
          = (ts.has_content || !(turnTexts ts.sess.search_enabled rs).isEmpty)
      ∧ (rs.foldl processResponse ts).sess.is_ai_speaking
          = (ts.sess.is_ai_speaking
              || !(turnTexts ts.sess.search_enabled rs).isEmpty) := by
  induction rs with
  | nil =>
    intro ts hInv
    simp [turnTexts, concatTokens]
  | cons r rest ih =>
    intro ts hInv
    obtain ⟨hse, hch, hcr, hhc, hrs, hsp⟩ := processResponse_fields ts r
    have hInv2 : (processResponse ts r).response_started = true →
        (processResponse ts r).sess.is_ai_speaking = true := by
      intro h
      rw [hsp]
      rw [hrs] at h
      cases hb : ts.response_started with
      | true => simp [hInv hb]
      | false =>
        rw [hb] at h
        simp at h
        simp [hb, h]
    obtain ⟨ih1, ih2, ih3, ih4, ih5⟩ := ih (processResponse ts r) hInv2
    rw [hse] at ih1 ih3 ih4 ih5
    cases hT : responseTextToken ts.sess.search_enabled r with
    | none =>
      have htt : turnTexts ts.sess.search_enabled (r :: rest)
          = turnTexts ts.sess.search_enabled rest := by
        simp [turnTexts, List.filterMap_cons, hT]
      rw [hT] at hcr hhc hsp
      simp only [Option.getD_none, Option.isSome_none] at hcr hhc hsp
      rw [List.foldl_cons, htt]
      refine ⟨by rw [ih1], by rw [ih2, hch], ?_, ?_, ?_⟩
      · rw [ih3, hcr]
        simp
      · rw [ih4, hhc]
        simp
      · rw [ih5, hsp]
        simp
    | some t =>
      have htt : turnTexts ts.sess.search_enabled (r :: rest)
          = t :: turnTexts ts.sess.search_enabled rest := by
        simp [turnTexts, List.filterMap_cons, hT]
      rw [hT] at hcr hhc hsp
      simp only [Option.getD_some, Option.isSome_some] at hcr hhc hsp
      rw [List.foldl_cons, htt]
      refine ⟨by rw [ih1], by rw [ih2, hch], ?_, ?_, ?_⟩
      · rw [ih3, hcr, concatTokens_cons, String.append_assoc]
      · rw [ih4, hhc]
        simp
      · rw [ih5, hsp]
        cases hb : ts.response_started with
        | true => simp [hInv hb]
        | false => simp

/-- C2 (amended): after every NORMALLY completed turn of the inbound
decode loop — with or without an end-of-turn commit — all
buffered-but-unplayed audio chunks are drained, leaving the playback
queue empty; a turn that ends abnormally skips the drain. -/
theorem playback_queue_drained (K : Nat) (st : SessionState)
    (responses : List LiveResponse) :
    (receive_audio_turn K st responses false).audio_in_queue = [] := rfl

/-- Counterexample for C2 as stated: a turn that ends abnormally (a
decode exception jumps to the except clause) skips the drain, leaving
its chunks in the playback queue at the turn boundary. -/
theorem abnormal_turn_keeps_stale_audio :
    (receive_audio_turn 50
        { audio_in_queue := [], is_ai_speaking := false, current_response := "",
          conversation_history := [], search_enabled := true }
        [LiveResponse.mk [1] false false false "",
         LiveResponse.mk [2] false false false ""] true).audio_in_queue
      = [[1], [2]]
    ∧ ([[1], [2]] : List (List Nat)) ≠ [] :=
  ⟨by decide, by decide⟩

/-- C6: when a turn's inbound stream is exhausted normally, a turn with
at least one text token appends exactly one assistant entry whose
content is the concatenation of the turn's text tokens in arrival order
and resets the speaking flag; a turn that yields no text tokens appends
no assistant entry. -/
theorem assistant_turn_commit (K : Nat) (st : SessionState)
    (responses : List LiveResponse) :
    (turnTexts st.search_enabled responses ≠ [] →
      (receive_audio_turn K st responses false).conversation_history
          = add_to_conversation_history K st.conversation_history "assistant"
              (concatTokens (turnTexts st.search_enabled responses))
        ∧ (receive_audio_turn K st responses false).is_ai_speaking = false)
    ∧ (turnTexts st.search_enabled responses = [] →
      (receive_audio_turn K st responses false).conversation_history
          = st.conversation_history) := by
  obtain ⟨h1, h2, h3, h4, h5⟩ :=
    foldl_processResponse responses (initTurnState st) (by simp [initTurnState])
  simp only [initTurnState] at h1 h2 h3 h4 h5
  constructor
  · intro hne
    have htokB : (turnTexts st.search_enabled responses).isEmpty = false := by
      cases hcase : turnTexts st.search_enabled responses with
      | nil => exact absurd hcase hne
      | cons a l => simp
    have hcond : ((responses.foldl processResponse (initTurnState st)).sess.is_ai_speaking
        && (responses.foldl processResponse (initTurnState st)).has_content) = true := by
      simp only [initTurnState]
      rw [h4, h5]
      simp [htokB]
    constructor
    · show ({ (if ((responses.foldl processResponse (initTurnState st)).sess.is_ai_speaking
            && (responses.foldl processResponse (initTurnState st)).has_content) = true then
          { (responses.foldl processResponse (initTurnState st)).sess with
              conversation_history := add_to_conversation_history K
                (responses.foldl processResponse (initTurnState st)).sess.conversation_history
                "assistant"
                (responses.foldl processResponse (initTurnState st)).sess.current_response,
              is_ai_speaking := false }
        else (responses.foldl processResponse (initTurnState st)).sess)
          with audio_in_queue := [] } : SessionState).conversation_history
        = add_to_conversation_history K st.conversation_history "assistant"
            (concatTokens (turnTexts st.search_enabled responses))
      rw [if_pos hcond]
      show add_to_conversation_history K
          (responses.foldl processResponse (initTurnState st)).sess.conversation_history
          "assistant"
          (responses.foldl processResponse (initTurnState st)).sess.current_response
        = add_to_conversation_history K st.conversation_history "assistant"
            (concatTokens (turnTexts st.search_enabled responses))
      simp only [initTurnState]
      rw [h2, h3]
      simp
    · show ({ (if ((responses.foldl processResponse (initTurnState st)).sess.is_ai_speaking
            && (responses.foldl processResponse (initTurnState st)).has_content) = true then
          { (responses.foldl processResponse (initTurnState st)).sess with
              conversation_history := add_to_conversation_history K
                (responses.foldl processResponse (initTurnState st)).sess.conversation_history
                "assistant"
                (responses.foldl processResponse (initTurnState st)).sess.current_response,
              is_ai_speaking := false }
        else (responses.foldl processResponse (initTurnState st)).sess)
          with audio_in_queue := [] } : SessionState).is_ai_speaking = false
      rw [if_pos hcond]
  · intro hz
    have htokB : (turnTexts st.search_enabled responses).isEmpty = true := by
      simp [hz]
    have hcond : ((responses.foldl processResponse (initTurnState st)).sess.is_ai_speaking
        && (responses.foldl processResponse (initTurnState st)).has_content) = false := by
      simp only [initTurnState]
      rw [h4]
      simp [htokB]
    show ({ (if ((responses.foldl processResponse (initTurnState st)).sess.is_ai_speaking
          && (responses.foldl processResponse (initTurnState st)).has_content) = true then
        { (responses.foldl processResponse (initTurnState st)).sess with
            conversation_history := add_to_conversation_history K
              (responses.foldl processResponse (initTurnState st)).sess.conversation_history
              "assistant"
              (responses.foldl processResponse (initTurnState st)).sess.current_response,
            is_ai_speaking := false }
      else (responses.foldl processResponse (initTurnState st)).sess)
        with audio_in_queue := [] } : SessionState).conversation_history
      = st.conversation_history
    rw [if_neg (by simp [hcond])]
    show (responses.foldl processResponse (initTurnState st)).sess.conversation_history
      = st.conversation_history
    simp only [initTurnState]
    exact h2

/-- Witness for C6: a turn carrying audio, two text tokens and a tool
call commits one assistant entry with the concatenated text. -/
theorem assistant_turn_commit_witness :
    turnTexts true
        [LiveResponse.mk [5] false false false "",
         LiveResponse.mk [] false false false "Hello",
         LiveResponse.mk [] true false false "",
         LiveResponse.mk [] false false false " world"] ≠ []
    ∧ ((receive_audio_turn 50
          { audio_in_queue := [], is_ai_speaking := false,
            current_response := "", conversation_history := [],
            search_enabled := true }
          [LiveResponse.mk [5] false false false "",
           LiveResponse.mk [] false false false "Hello",
           LiveResponse.mk [] true false false "",
           LiveResponse.mk [] false false false " world"]
          false).conversation_history
        = add_to_conversation_history 50 [] "assistant"
            (concatTokens (turnTexts true
              [LiveResponse.mk [5] false false false "",
               LiveResponse.mk [] false false false "Hello",
               LiveResponse.mk [] true false false "",
               LiveResponse.mk [] false false false " world"]))
      ∧ (receive_audio_turn 50
          { audio_in_queue := [], is_ai_speaking := false,
            current_response := "", conversation_history := [],
            search_enabled := true }
          [LiveResponse.mk [5] false false false "",
           LiveResponse.mk [] false false false "Hello",
           LiveResponse.mk [] true false false "",
           LiveResponse.mk [] false false false " world"]
          false).is_ai_speaking = false) :=
  ⟨by decide,
   (assistant_turn_commit 50
      { audio_in_queue := [], is_ai_speaking := false, current_response := "",
        conversation_history := [], search_enabled := true }
      [LiveResponse.mk [5] false false false "",
       LiveResponse.mk [] false false false "Hello",
       LiveResponse.mk [] true false false "",
       LiveResponse.mk [] false false false " world"]).1 (by decide)⟩

/-- C3 (amended): the screen loop absorbs every capture error inside
its capture helper and continues through all cycles, pausing the normal
3.0 s capture interval each cycle (no special 1.0 s pause for capture
errors); the camera loop, whose single try wraps the whole loop,
terminates permanently at its first capture error. -/
theorem capture_error_handling :
    (∀ (enabled : Bool) (cycles : List CaptureOutcome),
        (get_screen enabled cycles).2.2 = true
        ∧ (get_screen enabled cycles).2.1
            = List.replicate cycles.length Config.SCREEN_CAPTURE_INTERVAL)
    ∧ (∀ cycles : List CaptureOutcome,
        (get_screen true cycles).1
          = cycles.filterMap (fun c => _get_screen true c))
    ∧ (∀ (msg : String) (rest : List CaptureOutcome),
        get_frames true (CaptureOutcome.error msg :: rest) = ([], [], false)) := by
  refine ⟨?_, ?_, ?_⟩
  · intro enabled cycles
    induction cycles with
    | nil => simp [get_screen]
    | cons c rest ih =>
      obtain ⟨ih1, ih2⟩ := ih
      exact ⟨by simp [get_screen, ih1],
        by simp [get_screen, ih2, List.replicate_succ]⟩
  · intro cycles
    induction cycles with
    | nil => simp [get_screen]
    | cons c rest ih =>
      cases hc : _get_screen true c with
      | none => simp [get_screen, List.filterMap_cons, hc, ih]
      | some f => simp [get_screen, List.filterMap_cons, hc, ih]
  · intro msg rest
    simp [get_frames]

/-- Counterexample for C3 as stated: a first-cycle camera capture error
permanently terminates the camera producer (the later good frame is
never produced), and a screen capture error is followed by the normal
3.0 s interval, not a 1.0 s pause. -/
theorem camera_loop_terminates_on_error :
    get_frames true [CaptureOutcome.error "cv2 error", CaptureOutcome.frame 7]
      = ([], [], false)
    ∧ (get_frames true
        [CaptureOutcome.error "cv2 error", CaptureOutcome.frame 7]).2.2 ≠ true
    ∧ (get_screen true [CaptureOutcome.error "mss grab error"]).2.1
        = [Config.SCREEN_CAPTURE_INTERVAL]
    ∧ Config.SCREEN_CAPTURE_INTERVAL ≠ 10 :=
  ⟨by decide, by decide, by decide, by decide⟩

end OperatorGemini
